import Mathlib

/-!
# Verification of the `version_check` crate's parsing core

A shallow embedding of `src/lib.rs` of the `version_check` crate.
Strings are modelled as `List Char` (`Str`); the Rust string primitives
used by the crate (`str::lines`, `str::split`, `str::splitn`, the trim
family) are defined structurally so that all definitions are executable
and decidable on concrete inputs.
-/

/-- Strings are modelled as lists of characters. -/
abbrev Str := List Char

/-- `str::split(sep)` for a single-character separator: splits at every
occurrence, keeping empty segments; the empty string yields `[[]]`. -/
def splitOnChar (sep : Char) : Str → List Str
  | [] => [[]]
  | c :: rest =>
    let r := splitOnChar sep rest
    if c = sep then [] :: r else (c :: r.headD []) :: r.tail

/-- `str::splitn(2, sep).nth(1)`: the remainder after the first occurrence of
the (non-empty) separator `sep`, or `none` if `sep` does not occur. -/
def splitnRemainder (sep : Str) : Str → Option Str
  | [] => none
  | c :: rest =>
    if sep.isPrefixOf (c :: rest) then some ((c :: rest).drop sep.length)
    else splitnRemainder sep rest

/-- Removes one trailing carriage return, as `str::lines` does to each
line terminated by `"\r\n"`. -/
def stripCR (l : Str) : Str :=
  if l.getLast? = some '\r' then l.dropLast else l

/-- Rust's `str::lines`: splits at `'\n'`, strips one `'\r'` from the end of
each newline-terminated line, and omits a final empty segment (a trailing
line terminator produces no extra line). -/
def rustLines (l : Str) : List Str :=
  let parts := splitOnChar '\n' l
  let front := (parts.dropLast).map stripCR
  match parts.getLast? with
  | some [] => front
  | some lastPart => front ++ [lastPart]
  | none => front

/-- Rust's `char::is_whitespace`: the Unicode `White_Space` property —
U+0009..U+000D, U+0020, U+0085, U+00A0, U+1680, U+2000..U+200A, U+2028,
U+2029, U+202F, U+205F and U+3000. -/
def isWS (c : Char) : Bool :=
  (0x09 ≤ c.toNat ∧ c.toNat ≤ 0x0D) ∨ c.toNat = 0x20 ∨ c.toNat = 0x85
    ∨ c.toNat = 0xA0 ∨ c.toNat = 0x1680
    ∨ (0x2000 ≤ c.toNat ∧ c.toNat ≤ 0x200A)
    ∨ c.toNat = 0x2028 ∨ c.toNat = 0x2029 ∨ c.toNat = 0x202F
    ∨ c.toNat = 0x205F ∨ c.toNat = 0x3000

/-- `str::trim_left` (leading whitespace removed). -/
def trimLeft (l : Str) : Str := l.dropWhile isWS

/-- `str::trim_right` (trailing whitespace removed). -/
def trimRight (l : Str) : Str := (l.reverse.dropWhile isWS).reverse

/-- `str::trim`. -/
def trim (l : Str) : Str := trimLeft (trimRight l)

/-- `str::trim_right_matches(")")`: removes every trailing `')'`. -/
def trimRightParens (l : Str) : Str := (l.reverse.dropWhile (· = ')')).reverse

/-- `str::trim_left_matches('(')`: removes every leading `'('`. -/
def trimLeftParens (l : Str) : Str := l.dropWhile (· = '(')

/-- `str::starts_with`. -/
def startsWith (pre l : Str) : Bool := pre.isPrefixOf l

/-- `str::ends_with`. -/
def endsWith (suf l : Str) : Bool := suf.isSuffixOf l

/-- `version_and_date_from_rustc_version` from `src/lib.rs`: takes the last
line (`s.lines().last().unwrap_or(s)`), trims it, splits on `" "`; token 1 is
the version; the first later token ending in `')'` — stripped of trailing
whitespace, trailing `')'`s, leading whitespace and leading `'('`s — is the
date. -/
def version_and_date_from_rustc_version (s : Str) : Option Str × Option Str :=
  let last_line := ((rustLines s).getLast?).getD s
  let components := splitOnChar ' ' (trim last_line)
  let version := components.get? 1
  let date := (((components.drop 2).filter (fun c => endsWith [')'] c)).head?).map
    (fun t => trimLeftParens (trimLeft (trimRightParens (trimRight t))))
  (version, date)

/-- The per-line state update of `version_and_date_from_rustc_verbose_version`:
a `"rustc "` header line fills components not already set via the simple
parser; a `"release: "` line overrides the version with the remainder after
the first `": "`; a `"commit-date: "` line overrides the date, or clears it
when the line ends with `"unknown"`; other lines are ignored. -/
def verboseStep (acc : Option Str × Option Str) (line : Str) :
    Option Str × Option Str :=
  if startsWith "rustc ".data line then
    let vd := version_and_date_from_rustc_version line
    (acc.1 <|> vd.1, acc.2 <|> vd.2)
  else if startsWith "release: ".data line then
    (splitnRemainder ": ".data line, acc.2)
  else if startsWith "commit-date: ".data line then
    (acc.1, if endsWith "unknown".data line then none
            else splitnRemainder ": ".data line)
  else acc

/-- `version_and_date_from_rustc_verbose_version` from `src/lib.rs`: folds
`verboseStep` over the lines of the input, starting from `(None, None)`. -/
def version_and_date_from_rustc_verbose_version (s : Str) :
    Option Str × Option Str :=
  (rustLines s).foldl verboseStep (none, none)

/-- Decimal parse of a non-negative integer token: all characters must be
digits and at least one must be present. -/
def parseNat? (l : Str) : Option Nat :=
  if l ≠ [] ∧ l.all Char.isDigit then
    some (l.foldl (fun n c => n * 10 + (c.toNat - 48)) 0)
  else none

/-- Modelled from the spec: the `Version` data model of the missing
`src/version.rs` — an ordered triple (major, minor, patch) of bounded
non-negative integers. The optional pre-release tag does not participate
in ordering and is not retained. -/
structure Version where
  major : Nat
  minor : Nat
  patch : Nat
deriving DecidableEq, Repr

/-- Modelled from the spec: `Version::parse` of the missing `src/version.rs` —
splits off anything from the first `-` onward, splits the remainder on `.`,
keeps only tokens that parse as non-negative integers, requires exactly three
such tokens, and packs them into the triple; overflow beyond the bound
(16 bits per component) yields nothing. -/
def Version.parse (s : Str) : Option Version :=
  let nums := (splitOnChar '.' (s.takeWhile (· ≠ '-'))).filterMap parseNat?
  match nums with
  | [a, b, c] =>
    if a < 2 ^ 16 ∧ b < 2 ^ 16 ∧ c < 2 ^ 16 then some ⟨a, b, c⟩ else none
  | _ => none

/-- Modelled from the spec: the `Version` ordering of the missing
`src/version.rs` — lexicographic on (major, minor, patch) only. -/
def Version.le (a b : Version) : Bool :=
  decide (a.major < b.major ∨ (a.major = b.major ∧
    (a.minor < b.minor ∨ (a.minor = b.minor ∧ a.patch ≤ b.patch))))

/-- Modelled from the spec: `a >= b` in the numeric-triple ordering. -/
def Version.ge (a b : Version) : Bool := Version.le b a

/-- Modelled from the spec: the `Date` data model of the missing
`src/date.rs` — an ordered triple (year, month, day) of bounded
non-negative integers (year 16 bits, month and day 8 bits). -/
structure Date where
  year : Nat
  month : Nat
  day : Nat
deriving DecidableEq, Repr

/-- Modelled from the spec: `Date::parse` of the missing `src/date.rs` —
mirrors `Version::parse`: splits on `-`, requires exactly three
non-negative-integer tokens (year, month, day in that order), packs them
into the triple; overflow beyond the bit widths yields nothing. -/
def Date.parse (s : Str) : Option Date :=
  let nums := (splitOnChar '-' s).filterMap parseNat?
  match nums with
  | [y, m, d] =>
    if y < 2 ^ 16 ∧ m < 2 ^ 8 ∧ d < 2 ^ 8 then some ⟨y, m, d⟩ else none
  | _ => none

/-- Substring search, as Rust's `str::contains` with a string pattern. -/
def containsSubstr (needle : Str) : Str → Bool
  | [] => needle.isPrefixOf []
  | c :: rest => needle.isPrefixOf (c :: rest) || containsSubstr needle rest

/-- Modelled from the spec: the `Channel` model of the missing
`src/channel.rs` — {Stable, Beta, Nightly, Dev}. -/
inductive Channel where
  | Stable
  | Beta
  | Nightly
  | Dev
deriving DecidableEq, Repr

/-- Modelled from the spec: `Channel::parse` of the missing `src/channel.rs` —
substring inspection of the raw version text with fixed precedence
(nightly, then beta, then dev, then default stable); classification always
succeeds. -/
def Channel.parse (s : Str) : Option Channel :=
  if containsSubstr "nightly".data s then some Channel.Nightly
  else if containsSubstr "beta".data s then some Channel.Beta
  else if containsSubstr "dev".data s then some Channel.Dev
  else some Channel.Stable

/-- `get_version_and_date` from `src/lib.rs`, with the external process
invocation modelled as the parameter `raw`: the verbose version output of
the compiler, or `none` when invocation failed. -/
def get_version_and_date (raw : Option Str) : Option (Option Str × Option Str) :=
  raw.map version_and_date_from_rustc_verbose_version

/-- Modelled from the spec: `Version::read` of the missing `src/version.rs` —
obtains the version-string component of the parsed collaborator output,
then applies `Version.parse`. -/
def Version.read (raw : Option Str) : Option Version :=
  ((get_version_and_date raw).bind (fun vd => vd.1)).bind Version.parse

/-- `triple` from `src/lib.rs`: a single collaborator invocation and parse,
then the three sub-parses; `none` as soon as anything is missing. -/
def triple (raw : Option Str) : Option (Version × Channel × Date) :=
  match get_version_and_date raw with
  | some (some version_str, some date_str) =>
    match Version.parse version_str with
    | some version =>
      match Channel.parse version_str with
      | some channel =>
        match Date.parse date_str with
        | some date => some (version, channel, date)
        | none => none
      | none => none
    | none => none
  | _ => none

/-- `is_min_version` from `src/lib.rs`: reads the installed version, parses
the bound, and compares with the numeric-triple ordering. -/
def is_min_version (raw : Option Str) (min_version : Str) : Option Bool :=
  match Version.read raw, Version.parse min_version with
  | some rustc_ver, some min_ver => some (Version.ge rustc_ver min_ver)
  | _, _ => none

example :
    version_and_date_from_rustc_version "rustc 1.20.0-nightly (d84693b93 2017-07-09)".data
      = (some "1.20.0-nightly".data, some "2017-07-09".data) := by decide

example :
    version_and_date_from_rustc_version "rustc 1.18.0".data
      = (some "1.18.0".data, none) := by decide

example :
    version_and_date_from_rustc_version "warning: bad\nrustc 1.30.0-nightly (3bc2ca7e4 2018-09-20)".data
      = (some "1.30.0-nightly".data, some "2018-09-20".data) := by decide

example :
    version_and_date_from_rustc_verbose_version
      "rustc 1.50.0 (cb75ad5db 2021-02-10)\nbinary: rustc\ncommit-date: 2021-02-10\nhost: x86_64\nrelease: 1.50.0\n".data
      = (some "1.50.0".data, some "2021-02-10".data) := by decide

example :
    version_and_date_from_rustc_verbose_version
      "rustc 1.41.1\nbinary: rustc\ncommit-hash: unknown\ncommit-date: unknown\nrelease: 1.41.1\n".data
      = (some "1.41.1".data, none) := by decide

example : Version.parse "1.50.0".data = some ⟨1, 50, 0⟩ := by decide
example : Version.parse "1.20.0-nightly".data = some ⟨1, 20, 0⟩ := by decide
example : Version.parse "1.20".data = none := by decide
example : Date.parse "2021-02-10".data = some ⟨2021, 2, 10⟩ := by decide
example : Date.parse "not-a-date".data = none := by decide
example : Channel.parse "1.20.0-nightly".data = some Channel.Nightly := by decide
example : Channel.parse "1.20.0".data = some Channel.Stable := by decide
example : Version.ge ⟨1, 50, 0⟩ ⟨1, 49, 0⟩ = true := by decide
example : Version.ge ⟨1, 9, 0⟩ ⟨1, 10, 0⟩ = false := by decide

example :
    triple (some "rustc 1.50.0 (cb75ad5db 2021-02-10)\nbinary: rustc\ncommit-date: 2021-02-10\nrelease: 1.50.0\n".data)
      = some (⟨1, 50, 0⟩, Channel.Stable, ⟨2021, 2, 10⟩) := by decide

example :
    is_min_version (some "rustc 1.50.0 (cb75ad5db 2021-02-10)\nrelease: 1.50.0\n".data)
      "1.49.0".data = some true := by decide

/-! ## Lemmas about the string primitives -/

theorem splitOnChar_ne_nil (sep : Char) (l : Str) : splitOnChar sep l ≠ [] := by
  induction l with
  | nil => simp [splitOnChar]
  | cons c rest ih =>
    simp only [splitOnChar]
    by_cases hc : c = sep <;> simp [hc]

theorem splitOnChar_sep_not_mem (sep : Char) (l : Str) :
    ∀ x ∈ splitOnChar sep l, sep ∉ x := by
  induction l with
  | nil =>
    intro x hx
    simp [splitOnChar] at hx
    simp [hx]
  | cons c rest ih =>
    intro x hx
    cases h : splitOnChar sep rest with
    | nil => exact absurd h (splitOnChar_ne_nil sep rest)
    | cons hd tl =>
      have ihall : ∀ y ∈ hd :: tl, sep ∉ y := by rw [← h]; exact ih
      simp only [splitOnChar, h] at hx
      by_cases hc : c = sep
      · simp [hc] at hx
        rcases hx with rfl | rfl | hx
        · simp
        · exact ihall _ (List.mem_cons_self _ _)
        · exact ihall x (List.mem_cons_of_mem _ hx)
      · simp [hc] at hx
        rcases hx with rfl | hx
        · intro hmem
          rcases List.mem_cons.mp hmem with hh | hh
          · exact hc hh.symm
          · exact ihall hd (List.mem_cons_self hd tl) hh
        · exact ihall x (List.mem_cons_of_mem hd hx)

theorem splitOnChar_append_cons (sep : Char) (a rest : Str) (h : sep ∉ a) :
    splitOnChar sep (a ++ sep :: rest) = a :: splitOnChar sep rest := by
  induction a with
  | nil => simp [splitOnChar]
  | cons c a' ih =>
    have hc : ¬ c = sep := fun hh => h (hh ▸ List.mem_cons_self c a')
    have ha' : sep ∉ a' := fun hh => h (List.mem_cons_of_mem c hh)
    rw [List.cons_append]
    simp only [splitOnChar, ih ha']
    simp [hc]

theorem splitOnChar_of_not_mem {sep : Char} {l : Str} (h : sep ∉ l) :
    splitOnChar sep l = [l] := by
  induction l with
  | nil => rfl
  | cons c rest ih =>
    have hc : ¬ c = sep := fun hh => h (hh ▸ List.mem_cons_self c rest)
    have hr : sep ∉ rest := fun hh => h (List.mem_cons_of_mem c hh)
    simp only [splitOnChar, ih hr]
    simp [hc]

theorem stripCR_prefix_self (l : Str) : stripCR l <+: l := by
  unfold stripCR
  split
  · exact List.dropLast_prefix l
  · exact List.prefix_refl l

theorem stripCR_not_mem {c : Char} {l : Str} (h : c ∉ l) : c ∉ stripCR l :=
  fun hc => h ((stripCR_prefix_self l).sublist.subset hc)

theorem rustLines_append_newline (a rest : Str) (h : '\n' ∉ a) :
    rustLines (a ++ '\n' :: rest) = stripCR a :: rustLines rest := by
  simp only [rustLines]
  rw [splitOnChar_append_cons '\n' a rest h]
  cases hs : splitOnChar '\n' rest with
  | nil => exact absurd hs (splitOnChar_ne_nil '\n' rest)
  | cons p ps =>
    cases hl : (p :: ps).getLast? with
    | none => simp at hl
    | some lp =>
      cases lp with
      | nil => simp [hl]
      | cons q qs => simp [hl]

theorem rustLines_no_newline (l : Str) : ∀ x ∈ rustLines l, '\n' ∉ x := by
  intro x hx
  have hparts := splitOnChar_sep_not_mem '\n' l
  simp only [rustLines] at hx
  cases hl : (splitOnChar '\n' l).getLast? with
  | none =>
    rw [hl] at hx
    simp only [List.mem_map] at hx
    rcases hx with ⟨p, hp, rfl⟩
    exact stripCR_not_mem (hparts p ((List.dropLast_sublist _).subset hp))
  | some lp =>
    rw [hl] at hx
    cases lp with
    | nil =>
      simp only [List.mem_map] at hx
      rcases hx with ⟨p, hp, rfl⟩
      exact stripCR_not_mem (hparts p ((List.dropLast_sublist _).subset hp))
    | cons q qs =>
      simp only [List.mem_append, List.mem_map, List.mem_singleton] at hx
      rcases hx with ⟨p, hp, rfl⟩ | rfl
      · exact stripCR_not_mem (hparts p ((List.dropLast_sublist _).subset hp))
      · exact hparts _ (List.mem_of_getLast?_eq_some hl)

theorem rustLines_of_no_newline {l : Str} (h : '\n' ∉ l) :
    rustLines l = if l = [] then [] else [l] := by
  cases l with
  | nil => rfl
  | cons c cs =>
    simp only [rustLines]
    rw [splitOnChar_of_not_mem h]
    simp

theorem startsWith_false_of_startsWith {a b l : Str}
    (hab : a.isPrefixOf b = false) (hba : b.isPrefixOf a = false)
    (h : startsWith b l = true) : startsWith a l = false := by
  rw [Bool.eq_false_iff]
  intro hcon
  have ha : a <+: l := List.isPrefixOf_iff_prefix.mp hcon
  have hb : b <+: l := List.isPrefixOf_iff_prefix.mp h
  rcases List.prefix_or_prefix_of_prefix ha hb with hh | hh
  · rw [List.isPrefixOf_iff_prefix.mpr hh] at hab
    exact absurd hab (by simp)
  · rw [List.isPrefixOf_iff_prefix.mpr hh] at hba
    exact absurd hba (by simp)

theorem startsWith_stripCR_false {pre l : Str}
    (h : startsWith pre l = false) : startsWith pre (stripCR l) = false := by
  rw [Bool.eq_false_iff]
  intro hcon
  have hp : pre <+: stripCR l := List.isPrefixOf_iff_prefix.mp hcon
  have : pre <+: l := hp.trans (stripCR_prefix_self l)
  rw [startsWith, List.isPrefixOf_iff_prefix.mpr this] at h
  exact absurd h (by simp)

theorem verboseStep_skip {acc : Option Str × Option Str} {line : Str}
    (h1 : startsWith "rustc ".data line = false)
    (h2 : startsWith "release: ".data line = false)
    (h3 : startsWith "commit-date: ".data line = false) :
    verboseStep acc line = acc := by
  simp [verboseStep, h1, h2, h3]

/-! ## Claim theorems -/

/-- C1 (counterexample): the simple parsing strategy does **not** compute its
result from the first line only — on the two-line input
`"rustc 1.0.0\nrustc 2.0.0"` it returns version `"2.0.0"`, which differs from
the result of parsing the first line `"rustc 1.0.0"` alone. -/
theorem simple_parse_first_line_counterexample :
    version_and_date_from_rustc_version "rustc 1.0.0\nrustc 2.0.0".data
        ≠ version_and_date_from_rustc_version "rustc 1.0.0".data
      ∧ ((rustLines "rustc 1.0.0\nrustc 2.0.0".data).head?).getD []
          = "rustc 1.0.0".data
      ∧ version_and_date_from_rustc_version "rustc 1.0.0\nrustc 2.0.0".data
          = (some "2.0.0".data, none) := by
  decide

/-- C1 (amended): for every input text, the simple parsing strategy
(`version_and_date_from_rustc_version`) computes its result from the **last**
line only: its output equals the output of parsing the last line alone, so
earlier lines never influence the returned version or date. -/
theorem simple_parse_uses_last_line (s : Str) :
    version_and_date_from_rustc_version s
      = version_and_date_from_rustc_version (((rustLines s).getLast?).getD s) := by
  rcases hl : (rustLines s).getLast? with _ | t
  · simp
  · have ht : '\n' ∉ t := rustLines_no_newline s t (List.mem_of_getLast?_eq_some hl)
    simp only [Option.getD_some]
    by_cases h0 : t = []
    · subst h0
      simp only [version_and_date_from_rustc_version]
      rw [hl, rustLines_of_no_newline ht]
      simp
    · simp only [version_and_date_from_rustc_version]
      rw [hl, rustLines_of_no_newline ht]
      simp [h0]

/-- C2: the verbose parser is invariant under prepending any finite sequence
of newline-terminated noise lines, none of which starts with the
product-name token `"rustc "` or a recognized label (`"release: "`,
`"commit-date: "`): the result on the prefixed input equals the result on
`s` alone. -/
theorem verbose_parse_prefix_noise_invariant (noise : List Str) (s : Str)
    (h : ∀ l ∈ noise, '\n' ∉ l
          ∧ startsWith "rustc ".data l = false
          ∧ startsWith "release: ".data l = false
          ∧ startsWith "commit-date: ".data l = false) :
    version_and_date_from_rustc_verbose_version
        ((noise.map (fun l => l ++ ['\n'])).flatten ++ s)
      = version_and_date_from_rustc_verbose_version s := by
  induction noise with
  | nil => simp
  | cons a ns ih =>
    have ha := h a (List.mem_cons_self a ns)
    have hrest : ∀ l ∈ ns, '\n' ∉ l
          ∧ startsWith "rustc ".data l = false
          ∧ startsWith "release: ".data l = false
          ∧ startsWith "commit-date: ".data l = false :=
      fun l hl => h l (List.mem_cons_of_mem a hl)
    have hshape :
        ((a :: ns).map (fun l => l ++ ['\n'])).flatten ++ s
          = a ++ '\n' :: ((ns.map (fun l => l ++ ['\n'])).flatten ++ s) := by
      simp [List.append_assoc]
    rw [hshape]
    simp only [version_and_date_from_rustc_verbose_version]
    rw [rustLines_append_newline _ _ ha.1, List.foldl_cons,
      verboseStep_skip (startsWith_stripCR_false ha.2.1)
        (startsWith_stripCR_false ha.2.2.1)
        (startsWith_stripCR_false ha.2.2.2)]
    exact ih hrest

/-- C2 (witness): a concrete noise line before a concrete header line. -/
theorem verbose_parse_prefix_noise_invariant_witness :
    version_and_date_from_rustc_verbose_version
        ((["warning: invalid logging spec".data].map (fun l => l ++ ['\n'])).flatten
          ++ "rustc 1.50.0 (cb75ad5db 2021-02-10)".data)
      = version_and_date_from_rustc_verbose_version
          "rustc 1.50.0 (cb75ad5db 2021-02-10)".data :=
  verbose_parse_prefix_noise_invariant ["warning: invalid logging spec".data]
    "rustc 1.50.0 (cb75ad5db 2021-02-10)".data (by decide)

/-- C3 (counterexample): a `"commit-date:"` line whose remainder merely
**ends** with `"unknown"` (here `"2021-03-07-unknown"`, which is not the
literal sentinel `"unknown"`) also clears the date, contradicting the claim
that only an exact `"unknown"` remainder does. -/
theorem commit_date_unknown_counterexample :
    version_and_date_from_rustc_verbose_version
        "commit-date: 2021-03-07-unknown".data = (none, none)
      ∧ splitnRemainder ": ".data "commit-date: 2021-03-07-unknown".data
          = some "2021-03-07-unknown".data
      ∧ "2021-03-07-unknown".data ≠ "unknown".data := by
  decide

/-- C3 (amended): in the verbose parser, a line starting with the
`"commit-date: "` label overrides the date with the remainder after the
first `": "` — except when the line **ends with** `"unknown"`, in which case
the date becomes (or stays) absent — regardless of any date already
accumulated (e.g. from a header line). -/
theorem commit_date_line_overrides_date (acc : Option Str × Option Str)
    (line : Str) (h : startsWith "commit-date: ".data line = true) :
    verboseStep acc line
      = (acc.1, if endsWith "unknown".data line = true then none
                else splitnRemainder ": ".data line) := by
  have h1 : startsWith "rustc ".data line = false :=
    startsWith_false_of_startsWith (by decide) (by decide) h
  have h2 : startsWith "release: ".data line = false :=
    startsWith_false_of_startsWith (by decide) (by decide) h
  simp [verboseStep, h1, h2, h]

/-- C3 (witness): `"commit-date: unknown"` clears a header-derived date. -/
theorem commit_date_line_overrides_date_witness :
    verboseStep (some "1.0.0".data, some "2015-05-13".data)
        "commit-date: unknown".data
      = (some "1.0.0".data, none) := by
  rw [commit_date_line_overrides_date _ _ (by decide)]
  decide

/-- C4 (counterexample): the remainder after a `"release: "` label is adopted
**verbatim**, not trimmed: on `"release: 1.0.0 "` (trailing space) the
version becomes `"1.0.0 "`, not the trimmed `"1.0.0"` the claim states. -/
theorem release_line_trim_counterexample :
    version_and_date_from_rustc_verbose_version "release: 1.0.0 ".data
        = (some "1.0.0 ".data, none)
      ∧ trim "1.0.0 ".data = "1.0.0".data
      ∧ "1.0.0 ".data ≠ "1.0.0".data := by
  decide

/-- C4 (amended): in the verbose parser, a line starting with the
`"release: "` label sets the version to the remainder of the line after the
first `": "` **verbatim (untrimmed)**, overriding any version already
accumulated (from a header line or an earlier labeled line). -/
theorem release_line_overrides_version (acc : Option Str × Option Str)
    (line : Str) (h : startsWith "release: ".data line = true) :
    verboseStep acc line = (splitnRemainder ": ".data line, acc.2) := by
  have h1 : startsWith "rustc ".data line = false :=
    startsWith_false_of_startsWith (by decide) (by decide) h
  simp [verboseStep, h1, h]

/-- C4 (witness): a `"release: "` line overrides a previously set version. -/
theorem release_line_overrides_version_witness :
    verboseStep (some "9.9.9".data, some "2015-05-13".data)
        "release: 1.50.0".data
      = (some "1.50.0".data, some "2015-05-13".data) := by
  rw [release_line_overrides_version _ _ (by decide)]
  decide

/-- C5: `triple` returns `none` exactly when the version string is absent,
the date string is absent (including when the collaborator produced no
output at all), or any of the three sub-parses fails; in particular an
absent date alone suffices for `none`; otherwise it returns the
(Version, Channel, Date) triple. -/
theorem triple_characterization :
    (∀ raw vs ds v c d,
        get_version_and_date raw = some (some vs, some ds) →
        Version.parse vs = some v → Channel.parse vs = some c →
        Date.parse ds = some d → triple raw = some (v, c, d))
    ∧ (∀ raw vs, get_version_and_date raw = some (some vs, none) →
        triple raw = none)
    ∧ (∀ raw, triple raw = none ↔
        ¬ ∃ vs ds, get_version_and_date raw = some (some vs, some ds)
            ∧ (Version.parse vs).isSome ∧ (Channel.parse vs).isSome
            ∧ (Date.parse ds).isSome) := by
  refine ⟨?_, ?_, ?_⟩
  · intro raw vs ds v c d hg hv hc hd
    simp [triple, hg, hv, hc, hd]
  · intro raw vs hg
    simp [triple, hg]
  · intro raw
    cases hg : get_version_and_date raw with
    | none => simp [triple, hg]
    | some p =>
      rcases p with ⟨ov, od⟩
      cases ov with
      | none => simp [triple, hg]
      | some vs =>
        cases od with
        | none => simp [triple, hg]
        | some ds =>
          simp only [triple, hg, Option.some.injEq, Prod.mk.injEq]
          cases hv : Version.parse vs with
          | none => simp [hv]
          | some v =>
            cases hc : Channel.parse vs with
            | none => simp [hv, hc]
            | some c =>
              cases hd : Date.parse ds with
              | none => simp [hv, hc, hd]
              | some d => simp [hv, hc, hd]

/-- C5 (witness): `triple` fails when the date is absent (out-of-tree build)
and succeeds on a full verbose output. -/
theorem triple_characterization_witness :
    triple (some "rustc 1.41.1\ncommit-date: unknown\nrelease: 1.41.1\n".data)
        = none
      ∧ triple (some "rustc 1.52.0-nightly (234781afe 2021-03-07)\ncommit-date: 2021-03-07\nrelease: 1.52.0-nightly\n".data)
          = some (⟨1, 52, 0⟩, Channel.Nightly, ⟨2021, 3, 7⟩) :=
  ⟨triple_characterization.2.1 _ "1.41.1".data (by decide),
   triple_characterization.1 _ "1.52.0-nightly".data "2021-03-07".data _ _ _
     (by decide) (by decide) (by decide) (by decide)⟩

/-- C6: `is_min_version` returns `none` exactly when the installed version
cannot be read and parsed or the bound fails to parse; otherwise it returns
whether the installed version is at least the bound in the lexicographic
numeric-triple ordering. -/
theorem is_min_version_characterization :
    (∀ raw b, is_min_version raw b = none ↔
        (Version.read raw = none ∨ Version.parse b = none))
    ∧ (∀ raw b rv mv, Version.read raw = some rv → Version.parse b = some mv →
        is_min_version raw b
          = some (decide (mv.major < rv.major ∨ (mv.major = rv.major ∧
              (mv.minor < rv.minor ∨ (mv.minor = rv.minor ∧
                mv.patch ≤ rv.patch)))))) := by
  constructor
  · intro raw b
    cases hr : Version.read raw with
    | none => simp [is_min_version, hr]
    | some rv =>
      cases hb : Version.parse b with
      | none => simp [is_min_version, hr, hb]
      | some mv => simp [is_min_version, hr, hb]
  · intro raw b rv mv hr hb
    simp [is_min_version, hr, hb, Version.ge, Version.le]

/-- C6 (witness): a satisfied bound, and failure when the collaborator is
unreachable. -/
theorem is_min_version_characterization_witness :
    is_min_version
        (some "rustc 1.50.0 (cb75ad5db 2021-02-10)\nrelease: 1.50.0\n".data)
        "1.49.0".data = some true
      ∧ is_min_version none "1.49.0".data = none := by
  constructor
  · rw [is_min_version_characterization.2 _ _ ⟨1, 50, 0⟩ ⟨1, 49, 0⟩
      (by decide) (by decide)]
    decide
  · exact (is_min_version_characterization.1 none "1.49.0".data).mpr
      (Or.inl (by decide))

theorem verboseStep_header {acc : Option Str × Option Str} {line : Str}
    (h : startsWith "rustc ".data line = true) :
    verboseStep acc line
      = (acc.1 <|> (version_and_date_from_rustc_version line).1,
         acc.2 <|> (version_and_date_from_rustc_version line).2) := by
  simp [verboseStep, h]

/-- C8: on header-shaped lines (starting with `"rustc "`), each component is
adopted only if not already set: an already-set component is never
overridden, and over a run of header-shaped lines the first line to supply a
component wins. -/
theorem header_lines_first_match_wins :
    (∀ acc line, startsWith "rustc ".data line = true →
        verboseStep acc line
          = (acc.1 <|> (version_and_date_from_rustc_version line).1,
             acc.2 <|> (version_and_date_from_rustc_version line).2))
    ∧ (∀ acc line v, startsWith "rustc ".data line = true →
        acc.1 = some v → (verboseStep acc line).1 = some v)
    ∧ (∀ acc line d, startsWith "rustc ".data line = true →
        acc.2 = some d → (verboseStep acc line).2 = some d)
    ∧ (∀ lines acc, (∀ l ∈ lines, startsWith "rustc ".data l = true) →
        List.foldl verboseStep acc lines
          = (acc.1 <|> ((lines.map
                (fun l => (version_and_date_from_rustc_version l).1)).filterMap id).head?,
             acc.2 <|> ((lines.map
                (fun l => (version_and_date_from_rustc_version l).2)).filterMap id).head?)) := by
  refine ⟨fun acc line h => verboseStep_header h, ?_, ?_, ?_⟩
  · intro acc line v h hv
    rw [verboseStep_header h]
    simp [hv]
  · intro acc line d h hd
    rw [verboseStep_header h]
    simp [hd]
  · intro lines
    induction lines with
    | nil => intro acc h; simp
    | cons l ls ih =>
      intro acc h
      have hl := h l (List.mem_cons_self l ls)
      have hls : ∀ x ∈ ls, startsWith "rustc ".data x = true :=
        fun x hx => h x (List.mem_cons_of_mem l hx)
      rw [List.foldl_cons, verboseStep_header hl, ih _ hls]
      simp only [List.map_cons, Prod.mk.injEq]
      constructor
      · cases hv : (version_and_date_from_rustc_version l).1 with
        | none => simp [List.filterMap_cons]
        | some a => cases acc.1 <;> simp [List.filterMap_cons]
      · cases hd : (version_and_date_from_rustc_version l).2 with
        | none => simp [List.filterMap_cons]
        | some a => cases acc.2 <;> simp [List.filterMap_cons]

/-- C8 (witness): over two header lines, the first supplies the version; the
date comes from the first line that has one. -/
theorem header_lines_first_match_wins_witness :
    List.foldl verboseStep (none, none)
        ["rustc 1.0.0".data, "rustc 2.0.0 (abc 2015-05-13)".data]
      = (some "1.0.0".data, some "2015-05-13".data) := by
  rw [header_lines_first_match_wins.2.2.2 _ (none, none) (by decide)]
  decide

/-- C9: both parsing functions are total: every input string (including the
empty string and arbitrarily malformed text) yields an
(optional version, optional date) pair. -/
theorem parsers_total :
    (∀ s : Str, ∃ p : Option Str × Option Str,
        version_and_date_from_rustc_version s = p)
    ∧ (∀ s : Str, ∃ p : Option Str × Option Str,
        version_and_date_from_rustc_verbose_version s = p)
    ∧ version_and_date_from_rustc_version [] = (none, none)
    ∧ version_and_date_from_rustc_verbose_version [] = (none, none)
    ∧ version_and_date_from_rustc_version "???".data = (none, none)
    ∧ version_and_date_from_rustc_verbose_version "complete\n\ngarbage ???".data
        = (none, none) :=
  ⟨fun s => ⟨_, rfl⟩, fun s => ⟨_, rfl⟩, by decide, by decide, by decide,
   by decide⟩

/-- C10: the simple parser never returns a date without a version: if the
version component is `none`, the date component is `none` as well. -/
theorem simple_parse_no_date_without_version (s : Str)
    (h : (version_and_date_from_rustc_version s).1 = none) :
    (version_and_date_from_rustc_version s).2 = none := by
  simp only [version_and_date_from_rustc_version] at h ⊢
  have hlen := List.get?_eq_none.mp h
  rw [List.drop_eq_nil_of_le (Nat.le_trans hlen (by norm_num))]
  simp

/-- C10 (witness): at the empty input both components are `none`. -/
theorem simple_parse_no_date_without_version_witness :
    (version_and_date_from_rustc_version ([] : Str)).1 = none
      ∧ (version_and_date_from_rustc_version ([] : Str)).2 = none :=
  ⟨by decide, simple_parse_no_date_without_version ([] : Str) (by decide)⟩

theorem char_not_mem_append {c : Char} {a b : Str} (ha : c ∉ a) (hb : c ∉ b) :
    c ∉ a ++ b := by
  simp [List.mem_append, ha, hb]

theorem char_not_mem_cons {c x : Char} {a : Str} (hx : c ≠ x) (ha : c ∉ a) :
    c ∉ x :: a := by
  simp [List.mem_cons, hx, ha]

theorem dropWhile_eq_self_of_all {p : Char → Bool} {l : Str}
    (h : ∀ c ∈ l, p c = false) : l.dropWhile p = l := by
  cases l with
  | nil => rfl
  | cons c cs =>
    rw [List.dropWhile_cons]
    simp [h c (List.mem_cons_self c cs)]

theorem trimRight_eq_self {l : Str} {c : Char} (h : l.getLast? = some c)
    (hc : isWS c = false) : trimRight l = l := by
  have hr' := List.head?_reverse l
  rw [h] at hr'
  cases hr : l.reverse with
  | nil => rw [hr] at hr'; simp at hr'
  | cons x xs =>
    rw [hr] at hr'
    simp only [List.head?_cons, Option.some.injEq] at hr'
    subst hr'
    unfold trimRight
    rw [hr, List.dropWhile_cons]
    simp only [hc, Bool.false_eq_true, if_false]
    have := congrArg List.reverse hr
    simpa using this.symm

theorem endsWith_singleton (c : Char) (l : Str) :
    endsWith [c] l = decide (l.getLast? = some c) := by
  unfold endsWith List.isSuffixOf
  cases hr : l.reverse with
  | nil =>
    have hl : l = [] := by simpa using congrArg List.reverse hr
    subst hl
    simp [List.isPrefixOf]
  | cons x xs =>
    have hlast : l.getLast? = some x := by
      rw [← List.head?_reverse, hr]; rfl
    rw [hlast]
    rcases eq_or_ne x c with rfl | hne
    · simp [List.isPrefixOf]
    · simp [List.isPrefixOf, hne, Ne.symm hne]

/-- C7: for every single-line header of the shape
`"name MAJOR.MINOR.PATCH (HASH YYYY-MM-DD)"` (whitespace-free tokens
separated by single spaces, the hash not ending in `')'`, the date free of
parentheses), the simple parser returns the version token verbatim and the
date substring with the hash and the parentheses discarded. -/
theorem simple_parse_header_shape (name ver hash d : Str)
    (hname : name ≠ [])
    (hnw : ∀ c ∈ name, isWS c = false)
    (hvw : ∀ c ∈ ver, isWS c = false)
    (hhw : ∀ c ∈ hash, isWS c = false)
    (hh : hash.getLast? ≠ some ')')
    (hdw : ∀ c ∈ d, isWS c = false ∧ c ≠ ')' ∧ c ≠ '(') :
    version_and_date_from_rustc_version
        (name ++ ' ' :: (ver ++ ' ' :: '(' :: (hash ++ ' ' :: (d ++ [')']))))
      = (some ver, some d) := by
  set s : Str := name ++ ' ' :: (ver ++ ' ' :: '(' :: (hash ++ ' ' :: (d ++ [')'])))
    with hs_def
  have hname_nl : '\n' ∉ name := fun h => absurd (hnw _ h) (by decide)
  have hver_nl : '\n' ∉ ver := fun h => absurd (hvw _ h) (by decide)
  have hhash_nl : '\n' ∉ hash := fun h => absurd (hhw _ h) (by decide)
  have hd_nl : '\n' ∉ d := fun h => absurd (hdw _ h).1 (by decide)
  have hnl : '\n' ∉ s :=
    char_not_mem_append hname_nl (char_not_mem_cons (by decide)
      (char_not_mem_append hver_nl (char_not_mem_cons (by decide)
        (char_not_mem_cons (by decide)
          (char_not_mem_append hhash_nl (char_not_mem_cons (by decide)
            (char_not_mem_append hd_nl (by decide))))))))
  have hs_ne : s ≠ [] := by
    rw [hs_def]
    cases name with
    | nil => exact absurd rfl hname
    | cons c cs => simp
  have hlines : rustLines s = [s] := by
    rw [rustLines_of_no_newline hnl, if_neg hs_ne]
  have hlast : s.getLast? = some ')' := by
    rw [← List.head?_reverse, hs_def]
    simp
  have htrimR : trimRight s = s := trimRight_eq_self hlast (by decide)
  have htrim : trim s = s := by
    unfold trim
    rw [htrimR, hs_def]
    cases name with
    | nil => exact absurd rfl hname
    | cons c cs =>
      unfold trimLeft
      rw [List.cons_append, List.dropWhile_cons]
      simp [hnw c (List.mem_cons_self c cs)]
  have hsp_name : ' ' ∉ name := fun h => absurd (hnw _ h) (by decide)
  have hsp_ver : ' ' ∉ ver := fun h => absurd (hvw _ h) (by decide)
  have hsp_ph : ' ' ∉ ('(' :: hash) :=
    char_not_mem_cons (by decide) (fun h => absurd (hhw _ h) (by decide))
  have hsp_dp : ' ' ∉ (d ++ [')']) :=
    char_not_mem_append (fun h => absurd (hdw _ h).1 (by decide)) (by decide)
  have hsplit : splitOnChar ' ' s = [name, ver, '(' :: hash, d ++ [')']] := by
    rw [hs_def]
    rw [splitOnChar_append_cons ' ' name _ hsp_name]
    rw [splitOnChar_append_cons ' ' ver _ hsp_ver]
    rw [show ('(' :: (hash ++ ' ' :: (d ++ [')'])))
          = ('(' :: hash) ++ ' ' :: (d ++ [')']) from by simp]
    rw [splitOnChar_append_cons ' ' ('(' :: hash) _ hsp_ph]
    rw [splitOnChar_of_not_mem hsp_dp]
  have hf1 : endsWith [')'] ('(' :: hash) = false := by
    rw [endsWith_singleton]
    cases hhc : hash with
    | nil => decide
    | cons y ys =>
      rw [List.getLast?_cons_cons]
      rw [← hhc]
      exact decide_eq_false hh
  have hf2 : endsWith [')'] (d ++ [')']) = true := by
    rw [endsWith_singleton, List.getLast?_concat]
    decide
  have e1 : trimRight (d ++ [')']) = d ++ [')'] :=
    trimRight_eq_self (List.getLast?_concat d) (by decide)
  have e2 : trimRightParens (d ++ [')']) = d := by
    unfold trimRightParens
    rw [List.reverse_append]
    simp only [List.reverse_cons, List.reverse_nil, List.nil_append,
      List.singleton_append]
    rw [List.dropWhile_cons]
    simp only [decide_True, if_true]
    rw [dropWhile_eq_self_of_all
      (fun c hc => decide_eq_false (hdw c (List.mem_reverse.mp hc)).2.1)]
    exact List.reverse_reverse d
  have e3 : trimLeft d = d :=
    dropWhile_eq_self_of_all (fun c hc => (hdw c hc).1)
  have e4 : trimLeftParens d = d :=
    dropWhile_eq_self_of_all (fun c hc => decide_eq_false (hdw c hc).2.2)
  simp only [version_and_date_from_rustc_version]
  rw [hlines]
  simp only [List.getLast?_singleton, Option.getD_some]
  rw [htrim, hsplit]
  simp only [List.get?_cons_succ, List.get?_cons_zero, List.drop_succ_cons,
    List.drop_zero, List.filter_cons, hf1, hf2]
  simp [e1, e2, e3, e4]

/-- C7 (witness): the header `"rustc 1.50.0 (cb75ad5db 2021-02-10)"`. -/
theorem simple_parse_header_shape_witness :
    version_and_date_from_rustc_version
        ("rustc".data ++ ' ' :: ("1.50.0".data ++ ' ' :: '(' ::
          ("cb75ad5db".data ++ ' ' :: ("2021-02-10".data ++ [')']))))
      = (some "1.50.0".data, some "2021-02-10".data) :=
  simple_parse_header_shape "rustc".data "1.50.0".data "cb75ad5db".data
    "2021-02-10".data (by decide) (by decide) (by decide) (by decide)
    (by decide) (by decide)
